import Mathlib

/-!
Verification of the feed-schema normalization core of the RSS_scaner
repository (files `generic_rss_scanner.py` and `mapping_strategy_helper.py`).

The Python functions are shallowly embedded as executable Lean definitions:

* `clean_text` embeds `generic_rss_scanner.clean_text`: the two regex
  substitutions `re.sub(r'<[^>]+>', '', text or '')` and
  `re.sub(r'\s+', ' ', text)` followed by `str.strip()` are modelled by
  `stripTags`, `collapseWs` and `pyStrip` over `List Char`.
* `extract_field`, `load_mapping` and the per-entry loop of `parse_articles`
  embed the corresponding functions of `generic_rss_scanner.py`; Python
  dictionaries are modelled by association lists with in-place overwrite
  (`insertOrReplace`), which preserves both insertion order and
  last-write-wins value semantics.
* `suggest_mapping` and `update_json_mapping_file` embed the corresponding
  functions of `mapping_strategy_helper.py`; the `FIELD_HINTS` regexes are
  alternations of literal strings matched case-insensitively, modelled by
  case-folded substring search.
-/

namespace RSSScaner

/-! ## Text Normalizer (`clean_text` of generic_rss_scanner.py) -/

/-- The whitespace class of Python's `re` module (`\s`) restricted to ASCII:
space, tab, newline, carriage return, vertical tab, form feed. -/
def isWs (c : Char) : Bool :=
  c == ' ' || c == '\t' || c == '\n' || c == '\r' || c == '\x0b' || c == '\x0c'

/-- One left-to-right pass of `re.sub(r'<[^>]+>', '', ·)`, written as a
state machine.  The state `none` means "scanning normally"; `some buf`
means a `'<'` has been seen and `buf` holds the (reversed) non-`'>'`
characters read since.  A `'>'` closing a non-empty buffer completes a
match, which is removed; `"<>"` is not a match (the regex needs at least
one character between the brackets); a dangling `'<'` with no later `'>'`
fails to match and is emitted verbatim together with its buffer. -/
def stripTagsAux : Option (List Char) → List Char → List Char
  | none, [] => []
  | none, c :: rest =>
    if c == '<' then stripTagsAux (some []) rest
    else c :: stripTagsAux none rest
  | some buf, [] => '<' :: buf.reverse
  | some buf, c :: rest =>
    if c == '>' then
      if buf.isEmpty then '<' :: '>' :: stripTagsAux none rest
      else stripTagsAux none rest
    else stripTagsAux (some (c :: buf)) rest

/-- `re.sub(r'<[^>]+>', '', ·)` over a character list. -/
def stripTags (l : List Char) : List Char := stripTagsAux none l

/-- `re.sub(r'\s+', ' ', ·)`: every maximal run of whitespace is replaced
by a single space.  The flag records whether the previously read character
belonged to a whitespace run that has already emitted its space. -/
def collapseWsAux : Bool → List Char → List Char
  | _, [] => []
  | inRun, c :: rest =>
    if isWs c then
      if inRun then collapseWsAux true rest
      else ' ' :: collapseWsAux true rest
    else c :: collapseWsAux false rest

/-- `re.sub(r'\s+', ' ', ·)` over a character list. -/
def collapseWs (l : List Char) : List Char := collapseWsAux false l

/-- Left part of Python's `str.strip()`. -/
def stripLeft (l : List Char) : List Char := l.dropWhile isWs

/-- Right part of Python's `str.strip()`. -/
def stripRight (l : List Char) : List Char := (l.reverse.dropWhile isWs).reverse

/-- Python's `str.strip()` (whitespace on both ends). -/
def pyStrip (l : List Char) : List Char := stripRight (stripLeft l)

/-- `clean_text(text)` of generic_rss_scanner.py.  The argument is
`Option String` so that Python's `None` (turned into `''` by `text or ''`)
is representable. -/
def clean_text (text : Option String) : String :=
  String.mk (pyStrip (collapseWs (stripTags (text.getD "").data)))

end RSSScaner

namespace RSSScaner

/-! ## Invariants of the normalizer output -/

/-- `true` unless the list starts with a whitespace character. -/
def headNotWs : List Char → Bool
  | [] => true
  | c :: _ => !isWs c

/-- Whether the list contains the character `'>'`. -/
def hasGt : List Char → Bool
  | [] => false
  | c :: rest => c == '>' || hasGt rest

/-- The head condition of `goodAux`: a `'<'` is harmless when it is
immediately followed by `'>'` or when no `'>'` occurs after it at all. -/
def okHead (c : Char) (rest : List Char) : Bool :=
  !(c == '<') || (rest.head? == some '>') || !(hasGt rest)

/-- No suffix of the list starts with a removable markup tag. -/
def goodAux : List Char → Bool
  | [] => true
  | c :: rest => okHead c rest && goodAux rest

/-- The head condition of `wsOk`: a whitespace character must be a plain
space and must not be followed by further whitespace. -/
def wsOkHead (c : Char) (rest : List Char) : Bool :=
  !isWs c || ((c == ' ') && headNotWs rest)

/-- All whitespace is single plain spaces. -/
def wsOk : List Char → Bool
  | [] => true
  | c :: rest => wsOkHead c rest && wsOk rest

end RSSScaner

namespace RSSScaner

/-! ## Data model: feed item values, entries, and mapping rules -/

/-- A native field value of a feed item: per the store contract, either a
string or a list of strings (feedparser may return either for a tag). -/
inductive Value where
  | str (s : String)
  | vlist (xs : List String)
deriving DecidableEq, Repr

/-- Python truthiness for the values above: empty strings and empty lists
are falsy. -/
def truthy : Value → Bool
  | .str s => !(s == "")
  | .vlist xs => !xs.isEmpty

/-- Python `str()` of a field value.  For a list of plain strings (ones
without quotes or escape characters) `str` produces the bracketed
single-quoted repr form. -/
def pyStr : Value → String
  | .str s => s
  | .vlist xs =>
    "[" ++ String.intercalate ", " (xs.map (fun s => "'" ++ s ++ "'")) ++ "]"

/-- A feed item.  `attrs` is what attribute-style lookup
(`getattr`/`hasattr`) reaches, `items` is what key-style lookup
(`in`/`[]`/`.get`) reaches, and `isDict` records whether the object is a
`dict` instance (`isinstance(entry, dict)`).  A feedparser entry has
`isDict = true` and `attrs = items`; a plain dict has `isDict = true` and
empty `attrs`; an attribute-only object has `isDict = false`. -/
structure Entry where
  isDict : Bool
  attrs : List (String × Value)
  items : List (String × Value)
deriving Repr

/-- One value of the mapping store for a native tag: either a plain string
naming the target canonical field, or a JSON object with a `target` field
and possibly a `join_with` delimiter (a rule is multi-valued exactly when
the object carries `join_with`, per the `'join_with' in map_info` test). -/
inductive MapInfo where
  | plain (target : String)
  | dict (target : String) (join_with : Option String)
deriving DecidableEq, Repr

/-- `map_info['target'] if isinstance(map_info, dict) else map_info`. -/
def MapInfo.target : MapInfo → String
  | .plain t => t
  | .dict t _ => t

/-- `isinstance(map_info, dict) and 'join_with' in map_info`. -/
def MapInfo.isMultiValued : MapInfo → Bool
  | .dict _ (some _) => true
  | _ => false

/-- First-match association-list lookup, modelling Python dict access. -/
def lookupA {α : Type} : List (String × α) → String → Option α
  | [], _ => none
  | (k, v) :: rest, key => if k == key then some v else lookupA rest key

/-- Python dict assignment `d[k] = v`: overwrites the value in place when
the key exists (preserving its position in insertion order), otherwise
appends the new binding at the end. -/
def insertOrReplace {α : Type} : List (String × α) → String → α → List (String × α)
  | [], k, v => [(k, v)]
  | (k', v') :: rest, k, v =>
    if k' == k then (k, v) :: rest else (k', v') :: insertOrReplace rest k v

/-! ## Field Extractor (`extract_field` of generic_rss_scanner.py) -/

/-- The lookup of the multi-valued branch:
`if hasattr(entry, tag): values = getattr(entry, tag)
 elif tag in entry: values = entry[tag]` starting from `values = []`. -/
def lookupValues (e : Entry) (tag : String) : Value :=
  match lookupA e.attrs tag with
  | some v => v
  | none =>
    match lookupA e.items tag with
    | some v => v
    | none => .vlist []

/-- `if not isinstance(values, list): values = [values]`. -/
def toValuesList : Value → List String
  | .str s => [s]
  | .vlist xs => xs

/-- The lookup of the single-valued branch:
`getattr(entry, tag, None) or entry.get(tag) if isinstance(entry, dict) else None`
(which Python parses as
`(getattr(entry, tag, None) or entry.get(tag)) if isinstance(entry, dict) else None`). -/
def lookupSingle (e : Entry) (tag : String) : Option Value :=
  if e.isDict then
    match lookupA e.attrs tag with
    | some v => if truthy v then some v else lookupA e.items tag
    | none => lookupA e.items tag
  else none

/-- `extract_field(entry, tag, map_info)` of generic_rss_scanner.py. -/
def extract_field (e : Entry) (tag : String) (mi : MapInfo) : String :=
  match mi with
  | .dict _ (some j) =>
    String.intercalate j
      (((toValuesList (lookupValues e tag)).filter (fun v => !(v == ""))).map
        (fun v => clean_text (some v)))
  | _ =>
    match lookupSingle e tag with
    | some v => if truthy v then clean_text (some (pyStr v)) else ""
    | none => ""

/-! ## Mapping Resolver (`load_mapping` of generic_rss_scanner.py) -/

/-- One feed's rule set: native tag name to map-info, in declaration order. -/
abbrev FeedMapping := List (String × MapInfo)

/-- The parsed mapping store: feed_id to rule set. -/
abbrev Store := List (String × FeedMapping)

/-- `load_mapping(feed_id, mapping_path)` after the external JSON parse:
raises `ValueError` when `feed_id` is not a key of the store, otherwise
returns the stored rule set unchanged. -/
def load_mapping (feed_id : String) (store : Store) : Except String FeedMapping :=
  match lookupA store feed_id with
  | none => .error ("Feed ID '" ++ feed_id ++ "' not found in column_mapping.json")
  | some m => .ok m

/-! ## Canonicalizer (the per-entry loop of `parse_articles`) -/

/-- The inner loop of `parse_articles`: starting from an empty dict, write
`extract_field(entry, tag, map_info)` under the rule's target field for
every rule in declaration order. -/
def buildArticle (e : Entry) (mapping : FeedMapping) : List (String × String) :=
  mapping.foldl
    (fun art p => insertOrReplace art p.2.target (extract_field e p.1 p.2)) []

/-- `parse_articles` restricted to its pure core: one record per entry, in
the entries' original order (feed fetching and the debug print are
external I/O). -/
def parse_articles (entries : List Entry) (mapping : FeedMapping) :
    List (List (String × String)) :=
  entries.map (fun e => buildArticle e mapping)

/-! ## Persistence (`update_json_mapping_file` of mapping_strategy_helper.py) -/

/-- The state of the mapping store file as seen by
`update_json_mapping_file`: absent, present but failing `json.load`, or
present with parsed contents. -/
inductive StoreFile where
  | missing
  | unparseable
  | parsed (data : Store)

/-- `update_json_mapping_file(feed_id, new_mapping, json_path)`: the store
that is written back.  A missing or unparseable file yields an empty
starting store (`except Exception: data = {}`); then
`data[feed_id] = new_mapping` and the whole document is rewritten. -/
def update_json_mapping_file (feed_id : String) (new_mapping : FeedMapping)
    (file : StoreFile) : Store :=
  let data : Store :=
    match file with
    | .parsed d => d
    | _ => []
  insertOrReplace data feed_id new_mapping

end RSSScaner

namespace RSSScaner

/-! ## Mapping Suggestion Engine (`suggest_mapping` of mapping_strategy_helper.py) -/

/-- ASCII case folding, modelling the effect of `re.I` on the literal
patterns of `FIELD_HINTS`. -/
def lowerChar (c : Char) : Char :=
  if 'A' ≤ c && c ≤ 'Z' then Char.ofNat (c.toNat + 32) else c

/-- Case-folded character list of a string. -/
def foldCase (s : String) : List Char := s.data.map lowerChar

/-- Whether `pat` occurs at the start of `hay`. -/
def startsWithList : List Char → List Char → Bool
  | [], _ => true
  | _ :: _, [] => false
  | a :: as, b :: bs => a == b && startsWithList as bs

/-- Whether `pat` occurs contiguously anywhere inside `hay`. -/
def subListOf (pat : List Char) : List Char → Bool
  | [] => pat.isEmpty
  | c :: rest => startsWithList pat (c :: rest) || subListOf pat rest

/-- `regex.fullmatch(tag)` for an alternation of literal strings under
`re.I`: the tag equals one alternative up to case. -/
def ciFull (alts : List String) (tag : String) : Bool :=
  alts.any (fun a => foldCase a == foldCase tag)

/-- `regex.search(tag)` for an alternation of literal strings under
`re.I`: one alternative occurs inside the tag up to case. -/
def ciSearch (alts : List String) (tag : String) : Bool :=
  alts.any (fun a => subListOf (foldCase a) (foldCase tag))

/-- `regex.fullmatch(tag) or regex.search(tag)` of `suggest_mapping`. -/
def hintMatches (alts : List String) (tag : String) : Bool :=
  ciFull alts tag || ciSearch alts tag

/-- `FIELD_HINTS` of mapping_strategy_helper.py: each canonical field with
the literal alternatives of its (case-insensitive) regex, in the
dictionary's insertion order, which is Python's iteration order. -/
def FIELD_HINTS : List (String × List String) :=
  [("title", ["title"]),
   ("authors", ["creator", "author"]),
   ("abstract", ["description", "summary", "abstract", "content:encoded"]),
   ("published_date", ["date", "published", "pubDate", "updated"]),
   ("doi_url", ["doi", "link"]),
   ("link", ["link"])]

/-- Membership of a string in a list, modelling Python's `in` on the
`used` set and the tag list. -/
def containsS : List String → String → Bool
  | [], _ => false
  | s :: ts, t => t == s || containsS ts t

/-- The inner `for tag in tags: if regex.fullmatch(tag) or regex.search(tag)`
loop: the first tag of `tags` matching the field's pattern. -/
def findFirstMatch (alts : List String) : List String → Option String
  | [] => none
  | t :: ts => if hintMatches alts t then some t else findFirstMatch alts ts

/-- The first loop of `suggest_mapping`: for each canonical field in
`FIELD_HINTS` order, bind the first matching tag to that field (note the
code neither skips tags already in `used` nor guards the dict write, so a
later field silently overwrites an earlier field's claim of the same tag),
and add the tag to `used`. -/
def suggestFirstLoop (tags : List String) :
    List (String × List String) →
    List (String × String) × List String → List (String × String) × List String
  | [], st => st
  | fh :: fhs, (m, u) =>
    match findFirstMatch fh.2 tags with
    | some t => suggestFirstLoop tags fhs (insertOrReplace m t fh.1, t :: u)
    | none => suggestFirstLoop tags fhs (m, u)

/-- The second loop of `suggest_mapping`: every tag claimed by no field
maps to itself. -/
def suggestSecondLoop (used : List String) :
    List String → List (String × String) → List (String × String)
  | [], m => m
  | t :: ts, m =>
    suggestSecondLoop used ts
      (if containsS used t then m else insertOrReplace m t t)

/-- `suggest_mapping(tags)` of mapping_strategy_helper.py, as the
association list of the produced dict in insertion order. -/
def suggest_mapping (tags : List String) : List (String × String) :=
  let st := suggestFirstLoop tags FIELD_HINTS ([], [])
  suggestSecondLoop st.2 tags st.1

/-- The first tag (if any) that the inner loop of the spec's description
would bind to a field: the first tag matching the pattern that is not
already claimed by an earlier field.  Modelled from the spec sentence
"scan the discovered tags for the first one whose name matches that
field's associated pattern ... and not already claimed by an earlier,
higher-priority canonical field"; used only to state what the code does
NOT do. -/
def findFirstMatchUnclaimed (alts : List String) (used : List String) :
    List String → Option String
  | [] => none
  | t :: ts =>
    if hintMatches alts t && !containsS used t then some t
    else findFirstMatchUnclaimed alts used ts

/-- The first loop as the spec describes it (claimed tags excluded). -/
def suggestFirstLoopSpec (tags : List String) :
    List (String × List String) →
    List (String × String) × List String → List (String × String) × List String
  | [], st => st
  | fh :: fhs, (m, u) =>
    match findFirstMatchUnclaimed fh.2 u tags with
    | some t => suggestFirstLoopSpec tags fhs (insertOrReplace m t fh.1, t :: u)
    | none => suggestFirstLoopSpec tags fhs (m, u)

/-- `suggest_mapping` as the spec's words describe it: greedy
priority-ordered assignment that never rebinds a tag claimed by an
earlier, higher-priority canonical field. -/
def suggest_mapping_spec (tags : List String) : List (String × String) :=
  let st := suggestFirstLoopSpec tags FIELD_HINTS ([], [])
  suggestSecondLoop st.2 tags st.1

/-- The canonical field that ends up owning tag `t`: the last field in
`FIELD_HINTS` order whose first matching tag is `t`. -/
def lastClaim (tags : List String) (t : String) :
    List (String × List String) → Option String → Option String
  | [], acc => acc
  | fh :: fhs, acc =>
    lastClaim tags t fhs
      (if findFirstMatch fh.2 tags == some t then some fh.1 else acc)

end RSSScaner

namespace RSSScaner

/-- The character-level normalizer pipeline. -/
def cleanChars (l : List Char) : List Char := pyStrip (collapseWs (stripTags l))

end RSSScaner

namespace RSSScaner

/-! ## Lemmas: the tag-removal pass -/

theorem hasGt_append : ∀ a b : List Char, hasGt (a ++ b) = (hasGt a || hasGt b) := by
  intro a b
  induction a with
  | nil => simp [hasGt]
  | cons c rest ih => simp [hasGt, ih, Bool.or_assoc]

theorem hasGt_reverse : ∀ l : List Char, hasGt l.reverse = hasGt l := by
  intro l
  induction l with
  | nil => rfl
  | cons c rest ih => simp [hasGt, List.reverse_cons, hasGt_append, ih, Bool.or_comm]

theorem goodAux_of_no_gt : ∀ l : List Char, hasGt l = false → goodAux l = true := by
  intro l h
  induction l with
  | nil => rfl
  | cons c rest ih =>
    simp [hasGt] at h
    simp [goodAux, okHead, h.2, ih h.2]

theorem stripTagsAux_some_no_gt : ∀ (rest buf : List Char), hasGt rest = false →
    stripTagsAux (some buf) rest = '<' :: (buf.reverse ++ rest) := by
  intro rest
  induction rest with
  | nil => intro buf _; simp [stripTagsAux]
  | cons c r ih =>
    intro buf h
    simp [hasGt] at h
    have hc : (c == '>') = false := by simp [h.1]
    simp [stripTagsAux, hc, ih (c :: buf) h.2]

theorem stripTagsAux_none_no_gt : ∀ l : List Char, hasGt l = false →
    stripTagsAux none l = l := by
  intro l
  induction l with
  | nil => intro _; rfl
  | cons c rest ih =>
    intro h
    simp [hasGt] at h
    by_cases hc : c = '<'
    · subst hc
      simp [stripTagsAux, stripTagsAux_some_no_gt rest [] h.2]
    · simp [stripTagsAux, hc, ih h.2]

theorem goodAux_stripTagsAux : ∀ (l : List Char) (st : Option (List Char)),
    (∀ buf, st = some buf → hasGt buf = false) →
    goodAux (stripTagsAux st l) = true := by
  intro l
  induction l with
  | nil =>
    intro st h
    match st with
    | none => rfl
    | some buf =>
      have hb : hasGt buf = false := h buf rfl
      have hrev : hasGt buf.reverse = false := by rw [hasGt_reverse]; exact hb
      simp [stripTagsAux, goodAux, okHead, hrev, goodAux_of_no_gt _ hrev]
  | cons c rest ih =>
    intro st h
    match st with
    | none =>
      by_cases hc : c = '<'
      · subst hc
        simp only [stripTagsAux, beq_self_eq_true, if_pos]
        exact ih (some []) (by intro buf hb; cases hb; rfl)
      · have hcb : (c == '<') = false := by simp [hc]
        simp only [stripTagsAux, hcb, Bool.false_eq_true, if_neg, not_false_iff]
        simp [goodAux, okHead, hcb]
        exact ih none (by intro buf hb; cases hb)
    | some buf =>
      have hb : hasGt buf = false := h buf rfl
      by_cases hc : c = '>'
      · subst hc
        by_cases hemp : buf = []
        · subst hemp
          simp only [stripTagsAux, beq_self_eq_true, if_pos, List.isEmpty_nil]
          simp [goodAux, okHead]
          exact ih none (by intro buf hb; cases hb)
        · have : buf.isEmpty = false := by
            cases buf with
            | nil => exact absurd rfl hemp
            | cons x xs => rfl
          simp only [stripTagsAux, beq_self_eq_true, if_pos, this, Bool.false_eq_true,
            if_neg, not_false_iff]
          exact ih none (by intro buf hb; cases hb)
      · have hcb : (c == '>') = false := by simp [hc]
        simp only [stripTagsAux, hcb, Bool.false_eq_true, if_neg, not_false_iff]
        exact ih (some (c :: buf)) (by
          intro b hbeq
          cases hbeq
          simp [hasGt, hcb, hb])

theorem goodAux_stripTags (l : List Char) : goodAux (stripTags l) = true :=
  goodAux_stripTagsAux l none (by intro buf hb; cases hb)

theorem stripTags_of_goodAux : ∀ l : List Char, goodAux l = true → stripTags l = l := by
  intro l
  induction l with
  | nil => intro _; rfl
  | cons c rest ih =>
    intro h
    simp [goodAux] at h
    by_cases hc : c = '<'
    · subst hc
      have hok := h.1
      simp [okHead] at hok
      rcases hok with hh | hng
      · cases rest with
        | nil => simp at hh
        | cons d rest' =>
          simp at hh
          subst hh
          have hrest : stripTags ('>' :: rest') = '>' :: stripTagsAux none rest' := by
            simp [stripTags, stripTagsAux]
          have hih := ih h.2
          rw [hrest] at hih
          have hrest' : stripTagsAux none rest' = rest' := by
            injection hih
          show stripTagsAux none ('<' :: '>' :: rest') = '<' :: '>' :: rest'
          simp [stripTagsAux, hrest']
      · show stripTagsAux none ('<' :: rest) = '<' :: rest
        simp [stripTagsAux, stripTagsAux_some_no_gt rest [] hng]
    · show stripTagsAux none (c :: rest) = c :: rest
      simp [stripTagsAux, hc]
      exact ih h.2

end RSSScaner

namespace RSSScaner

/-! ## Lemmas: the whitespace-collapsing pass -/

theorem hasGt_collapseWsAux : ∀ (l : List Char) (b : Bool),
    hasGt l = false → hasGt (collapseWsAux b l) = false := by
  intro l
  induction l with
  | nil => intro b _; cases b <;> rfl
  | cons c rest ih =>
    intro b h
    simp [hasGt] at h
    by_cases hw : isWs c = true
    · cases b with
      | true => simp [collapseWsAux, hw]; exact ih true h.2
      | false =>
        simp [collapseWsAux, hw, hasGt]
        exact ih true h.2
    · simp [collapseWsAux, hw, hasGt, h.1]
      exact ih false h.2

theorem goodAux_collapseWsAux : ∀ (l : List Char) (b : Bool),
    goodAux l = true → goodAux (collapseWsAux b l) = true := by
  intro l
  induction l with
  | nil => intro b _; cases b <;> rfl
  | cons c rest ih =>
    intro b h
    simp [goodAux] at h
    by_cases hw : isWs c = true
    · have hc : c ≠ '<' := by
        intro hc; subst hc; simp [isWs] at hw
      cases b with
      | true => simp [collapseWsAux, hw]; exact ih true h.2
      | false =>
        simp [collapseWsAux, hw, goodAux, okHead]
        exact ih true h.2
    · by_cases hc : c = '<'
      · subst hc
        have hok := h.1
        simp [okHead] at hok
        simp [collapseWsAux, hw, goodAux]
        constructor
        · rcases hok with hh | hng
          · cases rest with
            | nil => simp at hh
            | cons d rest' =>
              simp at hh
              subst hh
              have hdw : isWs '>' = false := by decide
              simp [okHead, collapseWsAux, hdw]
          · simp [okHead, hasGt_collapseWsAux rest false hng]
        · exact ih false h.2
      · simp [collapseWsAux, hw, goodAux, okHead, hc]
        exact ih false h.2

theorem headNotWs_collapseWsAux_true : ∀ l : List Char,
    headNotWs (collapseWsAux true l) = true := by
  intro l
  induction l with
  | nil => rfl
  | cons c rest ih =>
    by_cases hw : isWs c = true
    · simp [collapseWsAux, hw]; exact ih
    · simp [collapseWsAux, hw, headNotWs]

theorem wsOk_collapseWsAux : ∀ (l : List Char) (b : Bool),
    wsOk (collapseWsAux b l) = true := by
  intro l
  induction l with
  | nil => intro b; cases b <;> rfl
  | cons c rest ih =>
    intro b
    by_cases hw : isWs c = true
    · cases b with
      | true => simp [collapseWsAux, hw]; exact ih true
      | false =>
        simp [collapseWsAux, hw, wsOk, wsOkHead, headNotWs_collapseWsAux_true rest]
        exact ih true
    · simp [collapseWsAux, hw, wsOk, wsOkHead]
      exact ih false

theorem collapseWsAux_of_wsOk : ∀ l : List Char, wsOk l = true →
    collapseWsAux false l = l ∧ (headNotWs l = true → collapseWsAux true l = l) := by
  intro l
  induction l with
  | nil => intro _; exact ⟨rfl, fun _ => rfl⟩
  | cons c rest ih =>
    intro h
    simp [wsOk] at h
    have ihr := ih h.2
    constructor
    · by_cases hw : isWs c = true
      · have hok := h.1
        simp [wsOkHead, hw] at hok
        obtain ⟨hsp, hhn⟩ := hok
        subst hsp
        simp [collapseWsAux, isWs, ihr.2 hhn]
      · simp [collapseWsAux, hw, ihr.1]
    · intro hh
      simp [headNotWs] at hh
      simp [collapseWsAux, hh, ihr.1]

end RSSScaner

namespace RSSScaner

/-! ## Lemmas: stripping and predicate preservation under affixes -/

theorem headNotWs_dropWhile (l : List Char) : headNotWs (l.dropWhile isWs) = true := by
  induction l with
  | nil => rfl
  | cons c rest ih =>
    by_cases hw : isWs c = true
    · simp [List.dropWhile_cons, hw]; exact ih
    · simp [List.dropWhile_cons, hw, headNotWs]

theorem dropWhile_of_headNotWs (l : List Char) (h : headNotWs l = true) :
    l.dropWhile isWs = l := by
  cases l with
  | nil => rfl
  | cons c rest =>
    simp [headNotWs] at h
    simp [List.dropWhile_cons, h]

theorem goodAux_dropWhile (l : List Char) (h : goodAux l = true) :
    goodAux (l.dropWhile isWs) = true := by
  induction l with
  | nil => exact h
  | cons c rest ih =>
    simp [goodAux] at h
    by_cases hw : isWs c = true
    · simp [List.dropWhile_cons, hw]; exact ih h.2
    · simp [List.dropWhile_cons, hw, goodAux, h.1, h.2]

theorem wsOk_dropWhile (l : List Char) (h : wsOk l = true) :
    wsOk (l.dropWhile isWs) = true := by
  induction l with
  | nil => exact h
  | cons c rest ih =>
    simp [wsOk] at h
    by_cases hw : isWs c = true
    · simp [List.dropWhile_cons, hw]; exact ih h.2
    · simp [List.dropWhile_cons, hw, wsOk, h.1, h.2]

theorem hasGt_of_allWs (b : List Char) (h : b.all isWs = true) : hasGt b = false := by
  induction b with
  | nil => rfl
  | cons c rest ih =>
    simp only [List.all_cons, Bool.and_eq_true] at h
    have hc : (c == '>') = false := by
      by_cases hcc : c = '>'
      · subst hcc; simp [isWs] at h
      · simp [hcc]
    simp [hasGt, hc, ih h.2]

theorem headNotWs_append_ws (a b : List Char) (h : headNotWs (a ++ b) = true) :
    headNotWs a = true := by
  cases a with
  | nil => rfl
  | cons c rest => exact h

theorem okHead_append_ws (c : Char) (a b : List Char) (hall : b.all isWs = true)
    (h : okHead c (a ++ b) = true) : okHead c a = true := by
  by_cases hc : c = '<'
  · subst hc
    simp [okHead] at h ⊢
    rcases h with hh | hng
    · cases a with
      | nil =>
        cases b with
        | nil => simp at hh
        | cons d rest =>
          simp at hh
          subst hh
          simp [isWs] at hall
      | cons d rest =>
        simp at hh
        subst hh
        simp
    · right
      rw [hasGt_append] at hng
      simp at hng
      simp [hng.1]
  · simp [okHead, hc]

theorem goodAux_append_ws (a b : List Char) (hall : b.all isWs = true)
    (h : goodAux (a ++ b) = true) : goodAux a = true := by
  induction a with
  | nil => rfl
  | cons c rest ih =>
    simp only [List.cons_append, goodAux, Bool.and_eq_true] at h
    simp only [goodAux, Bool.and_eq_true]
    exact ⟨okHead_append_ws c rest b hall h.1, ih h.2⟩

theorem wsOkHead_append_ws (c : Char) (a b : List Char) (h : wsOkHead c (a ++ b) = true) :
    wsOkHead c a = true := by
  by_cases hw : isWs c = true
  · simp [wsOkHead, hw] at h ⊢
    exact ⟨h.1, headNotWs_append_ws a b h.2⟩
  · simp [wsOkHead, hw]

theorem wsOk_append_ws (a b : List Char) (h : wsOk (a ++ b) = true) : wsOk a = true := by
  induction a with
  | nil => rfl
  | cons c rest ih =>
    simp only [List.cons_append, wsOk, Bool.and_eq_true] at h
    simp only [wsOk, Bool.and_eq_true]
    exact ⟨wsOkHead_append_ws c rest b h.1, ih h.2⟩

theorem stripRight_decomp (l : List Char) :
    l = stripRight l ++ (l.reverse.takeWhile isWs).reverse ∧
      (l.reverse.takeWhile isWs).reverse.all isWs = true := by
  constructor
  · have h := List.takeWhile_append_dropWhile (p := isWs) (l := l.reverse)
    have h2 := congrArg List.reverse h
    rw [List.reverse_append, List.reverse_reverse] at h2
    exact h2.symm
  · simp only [List.all_eq_true]
    intro x hx
    rw [List.mem_reverse] at hx
    exact List.mem_takeWhile_imp hx

theorem goodAux_stripRight (l : List Char) (h : goodAux l = true) :
    goodAux (stripRight l) = true := by
  obtain ⟨hdec, hall⟩ := stripRight_decomp l
  rw [hdec] at h
  exact goodAux_append_ws _ _ hall h

theorem wsOk_stripRight (l : List Char) (h : wsOk l = true) :
    wsOk (stripRight l) = true := by
  obtain ⟨hdec, hall⟩ := stripRight_decomp l
  rw [hdec] at h
  exact wsOk_append_ws _ _ h

theorem headNotWs_stripRight (l : List Char) (h : headNotWs l = true) :
    headNotWs (stripRight l) = true := by
  obtain ⟨hdec, _⟩ := stripRight_decomp l
  rw [hdec] at h
  exact headNotWs_append_ws _ _ h

theorem headNotWs_stripRight_reverse (l : List Char) :
    headNotWs (stripRight l).reverse = true := by
  unfold stripRight
  rw [List.reverse_reverse]
  exact headNotWs_dropWhile l.reverse

theorem stripRight_of_headNotWs_reverse (l : List Char) (h : headNotWs l.reverse = true) :
    stripRight l = l := by
  unfold stripRight
  rw [dropWhile_of_headNotWs l.reverse h, List.reverse_reverse]

end RSSScaner

namespace RSSScaner

/-! ## The normalizer output is a fixed point -/

theorem goodAux_pyStrip (l : List Char) (h : goodAux l = true) :
    goodAux (pyStrip l) = true :=
  goodAux_stripRight _ (goodAux_dropWhile l h)

theorem wsOk_pyStrip (l : List Char) (h : wsOk l = true) :
    wsOk (pyStrip l) = true :=
  wsOk_stripRight _ (wsOk_dropWhile l h)

theorem headNotWs_pyStrip (l : List Char) : headNotWs (pyStrip l) = true :=
  headNotWs_stripRight _ (headNotWs_dropWhile l)

theorem headNotWs_pyStrip_reverse (l : List Char) :
    headNotWs (pyStrip l).reverse = true :=
  headNotWs_stripRight_reverse _

theorem pyStrip_of_stripped (l : List Char) (h1 : headNotWs l = true)
    (h2 : headNotWs l.reverse = true) : pyStrip l = l := by
  unfold pyStrip stripLeft
  rw [dropWhile_of_headNotWs l h1, stripRight_of_headNotWs_reverse l h2]

theorem clean_text_eq_cleanChars (t : Option String) :
    clean_text t = String.mk (cleanChars (t.getD "").data) := rfl

theorem goodAux_cleanChars (l : List Char) : goodAux (cleanChars l) = true :=
  goodAux_pyStrip _ (goodAux_collapseWsAux _ false (goodAux_stripTags l))

theorem wsOk_cleanChars (l : List Char) : wsOk (cleanChars l) = true :=
  wsOk_pyStrip _ (wsOk_collapseWsAux _ false)

theorem headNotWs_cleanChars (l : List Char) : headNotWs (cleanChars l) = true :=
  headNotWs_pyStrip _

theorem headNotWs_cleanChars_reverse (l : List Char) :
    headNotWs (cleanChars l).reverse = true :=
  headNotWs_pyStrip_reverse _

theorem cleanChars_idem (l : List Char) : cleanChars (cleanChars l) = cleanChars l := by
  have hg := goodAux_cleanChars l
  have hw := wsOk_cleanChars l
  have hh := headNotWs_cleanChars l
  have ht := headNotWs_cleanChars_reverse l
  show pyStrip (collapseWs (stripTags (cleanChars l))) = cleanChars l
  rw [stripTags_of_goodAux _ hg]
  rw [show collapseWs (cleanChars l) = cleanChars l from
    (collapseWsAux_of_wsOk _ hw).1]
  exact pyStrip_of_stripped _ hh ht

end RSSScaner

namespace RSSScaner

theorem goodAux_append_right (a l : List Char) (h : goodAux (a ++ l) = true) :
    goodAux l = true := by
  induction a with
  | nil => exact h
  | cons c rest ih =>
    simp only [List.cons_append, goodAux, Bool.and_eq_true] at h
    exact ih h.2

theorem wsOk_append_right (a l : List Char) (h : wsOk (a ++ l) = true) :
    wsOk l = true := by
  induction a with
  | nil => exact h
  | cons c rest ih =>
    simp only [List.cons_append, wsOk, Bool.and_eq_true] at h
    exact ih h.2

theorem noTag_of_goodAux (l : List Char) (hg : goodAux l = true) :
    ¬ ∃ a w b : List Char,
      l = a ++ '<' :: (w ++ '>' :: b) ∧ w ≠ [] ∧ ('>' : Char) ∉ w := by
  rintro ⟨a, w, b, hdec, hw, hgt⟩
  rw [hdec] at hg
  have h2 := goodAux_append_right a _ hg
  simp only [goodAux, Bool.and_eq_true] at h2
  have hok := h2.1
  rw [okHead] at hok
  have hlt : (!('<' == '<')) = false := by decide
  rw [hlt, Bool.false_or, Bool.or_eq_true] at hok
  rcases hok with hh | hng
  · rw [beq_iff_eq] at hh
    cases w with
    | nil => exact hw rfl
    | cons wc w' =>
      simp only [List.cons_append, List.head?_cons, Option.some.injEq] at hh
      subst hh
      exact hgt (List.mem_cons_self _ _)
  · rw [Bool.not_eq_true'] at hng
    rw [hasGt_append] at hng
    simp [hasGt] at hng

theorem noWsRun_of_wsOk (l : List Char) (hw : wsOk l = true) :
    ¬ ∃ (a b : List Char) (c d : Char),
      l = a ++ c :: d :: b ∧ isWs c = true ∧ isWs d = true := by
  rintro ⟨a, b, c, d, hdec, hc, hd⟩
  rw [hdec] at hw
  have h2 := wsOk_append_right a _ hw
  simp only [wsOk, Bool.and_eq_true] at h2
  have hok := h2.1
  simp [wsOkHead, hc, headNotWs, hd] at hok

/-- C3: the text normalizer `clean_text` of generic_rss_scanner.py is
idempotent: `clean_text(clean_text(x)) == clean_text(x)` for every string. -/
theorem clean_text_idempotent (s : String) :
    clean_text (some (clean_text (some s))) = clean_text (some s) := by
  show String.mk (cleanChars (cleanChars s.data)) = String.mk (cleanChars s.data)
  rw [cleanChars_idem]

/-- C4: for every input string, the output of `clean_text` contains no
`<...>`-delimited substring matching the markup pattern `<[^>]+>`, no two
consecutive whitespace characters, and neither leading nor trailing
whitespace; a `None` input yields the empty string. -/
theorem clean_text_output_normalized (s : String) :
    (¬ ∃ a w b : List Char,
        (clean_text (some s)).data = a ++ '<' :: (w ++ '>' :: b) ∧
          w ≠ [] ∧ ('>' : Char) ∉ w) ∧
    (¬ ∃ (a b : List Char) (c d : Char),
        (clean_text (some s)).data = a ++ c :: d :: b ∧
          isWs c = true ∧ isWs d = true) ∧
    headNotWs (clean_text (some s)).data = true ∧
    headNotWs (clean_text (some s)).data.reverse = true ∧
    clean_text none = "" := by
  have hdata : (clean_text (some s)).data = cleanChars s.data := rfl
  refine ⟨?_, ?_, ?_, ?_, rfl⟩
  · rw [hdata]; exact noTag_of_goodAux _ (goodAux_cleanChars s.data)
  · rw [hdata]; exact noWsRun_of_wsOk _ (wsOk_cleanChars s.data)
  · rw [hdata]; exact headNotWs_cleanChars s.data
  · rw [hdata]; exact headNotWs_cleanChars_reverse s.data

/-- Instance of `clean_text_output_normalized` at a concrete input. -/
theorem clean_text_output_normalized_witness :
    (¬ ∃ a w b : List Char,
        (clean_text (some " <p>A  B</p> ")).data = a ++ '<' :: (w ++ '>' :: b) ∧
          w ≠ [] ∧ ('>' : Char) ∉ w) ∧
    (¬ ∃ (a b : List Char) (c d : Char),
        (clean_text (some " <p>A  B</p> ")).data = a ++ c :: d :: b ∧
          isWs c = true ∧ isWs d = true) ∧
    headNotWs (clean_text (some " <p>A  B</p> ")).data = true ∧
    headNotWs (clean_text (some " <p>A  B</p> ")).data.reverse = true ∧
    clean_text none = "" :=
  clean_text_output_normalized " <p>A  B</p> "

end RSSScaner

namespace RSSScaner

/-! ## Lemmas: association-list (Python dict) semantics -/

theorem lookupA_insertOrReplace_self {α : Type} (m : List (String × α)) (k : String)
    (v : α) : lookupA (insertOrReplace m k v) k = some v := by
  induction m with
  | nil => simp [insertOrReplace, lookupA]
  | cons p rest ih =>
    obtain ⟨k0, v0⟩ := p
    by_cases h : k0 = k
    · subst h; simp [insertOrReplace, lookupA]
    · have hk : (k0 == k) = false := by simp [h]
      simp [insertOrReplace, lookupA, hk, ih]

theorem lookupA_insertOrReplace_ne {α : Type} (m : List (String × α)) (k k' : String)
    (v : α) (h : k' ≠ k) :
    lookupA (insertOrReplace m k v) k' = lookupA m k' := by
  induction m with
  | nil =>
    have hk : (k == k') = false := by simp [Ne.symm h]
    simp [insertOrReplace, lookupA, hk]
  | cons p rest ih =>
    obtain ⟨k0, v0⟩ := p
    by_cases h0 : k0 = k
    · subst h0
      have hk : (k0 == k') = false := by simp [Ne.symm h]
      simp [insertOrReplace, lookupA, hk]
    · have hk0 : (k0 == k) = false := by simp [h0]
      by_cases h1 : k0 = k'
      · subst h1; simp [insertOrReplace, lookupA, hk0]
      · have hk1 : (k0 == k') = false := by simp [h1]
        simp [insertOrReplace, lookupA, hk0, hk1, ih]

theorem find?_append_split {α : Type} (l1 l2 : List α) (p : α → Bool) :
    (l1 ++ l2).find? p =
      match l1.find? p with
      | some x => some x
      | none => l2.find? p := by
  induction l1 with
  | nil => rfl
  | cons x rest ih =>
    by_cases h : p x = true
    · simp [List.find?_cons, h]
    · have hx : p x = false := by simp [h]
      simp [List.find?_cons, hx, ih]

end RSSScaner

namespace RSSScaner

/-! ## C5: Mapping Resolver -/

/-- C5: `load_mapping` fails (raises `ValueError`, the spec's
`ConfigurationError`) exactly when `feed_id` has no entry in the store,
and for a known `feed_id` returns that feed's rule set exactly as stored,
hence in the stored declaration order. -/
theorem load_mapping_spec (feed_id : String) (store : Store) :
    ((∃ e, load_mapping feed_id store = .error e) ↔ lookupA store feed_id = none) ∧
    (∀ m, lookupA store feed_id = some m → load_mapping feed_id store = .ok m) := by
  refine ⟨⟨?_, ?_⟩, ?_⟩
  · rintro ⟨e, he⟩
    cases h : lookupA store feed_id with
    | none => rfl
    | some m => unfold load_mapping at he; rw [h] at he; cases he
  · intro h
    refine ⟨"Feed ID '" ++ feed_id ++ "' not found in column_mapping.json", ?_⟩
    unfold load_mapping
    rw [h]
  · intro m h
    unfold load_mapping
    rw [h]

/-- Instance of `load_mapping_spec` on a concrete store: the known id
returns its rules, the unknown id errors. -/
theorem load_mapping_spec_witness :
    load_mapping "x" [("x", [("title", MapInfo.plain "title")])] =
        .ok [("title", MapInfo.plain "title")] ∧
    (∃ e, load_mapping "y" [("x", [("title", MapInfo.plain "title")])] =
        .error e) :=
  ⟨(load_mapping_spec "x" [("x", [("title", MapInfo.plain "title")])]).2 _ rfl,
   (load_mapping_spec "y" [("x", [("title", MapInfo.plain "title")])]).1.mpr rfl⟩

/-! ## C6: Canonicalizer last-write-wins -/

theorem lookupA_buildLoop (e : Entry) :
    ∀ (ms : FeedMapping) (art : List (String × String)) (k : String),
      lookupA
          (ms.foldl
            (fun a p => insertOrReplace a p.2.target (extract_field e p.1 p.2)) art)
          k =
        ms.foldl
          (fun acc p =>
            if p.2.target == k then some (extract_field e p.1 p.2) else acc)
          (lookupA art k) := by
  intro ms
  induction ms with
  | nil => intro art k; rfl
  | cons p rest ih =>
    intro art k
    simp only [List.foldl_cons]
    rw [ih]
    congr 1
    by_cases h : p.2.target = k
    · rw [h]
      simp [lookupA_insertOrReplace_self]
    · have hb : (p.2.target == k) = false := by simp [h]
      rw [hb]
      simp only [Bool.false_eq_true, if_neg, not_false_iff]
      exact lookupA_insertOrReplace_ne art p.2.target k _ (Ne.symm h)

theorem lastWrite_eq_find (e : Entry) :
    ∀ (ms : FeedMapping) (acc : Option String) (k : String),
      ms.foldl
          (fun a p =>
            if p.2.target == k then some (extract_field e p.1 p.2) else a)
          acc =
        match ms.reverse.find? (fun p => p.2.target == k) with
        | some p => some (extract_field e p.1 p.2)
        | none => acc := by
  intro ms
  induction ms with
  | nil => intro acc k; rfl
  | cons p rest ih =>
    intro acc k
    simp only [List.foldl_cons, List.reverse_cons]
    rw [ih]
    rw [find?_append_split]
    cases hf : rest.reverse.find? (fun q => q.2.target == k) with
    | some q => rfl
    | none =>
      simp only [List.find?_cons]
      cases hp : (p.2.target == k) with
      | true => rfl
      | false => simp [hp, List.find?_nil]

/-- C6: the canonicalizer writes `extract_field` results under each rule's
target in declaration order with dict-overwrite semantics, so the value
recorded for any canonical field is the one of the last rule targeting it;
in particular, for two rules both targeting `authors` where the first
rule's tag is absent from the entry and the second rule's tag is present,
the produced record's `authors` is the second rule's extracted value. -/
theorem canonicalize_last_write_wins (e : Entry) (ms : FeedMapping) (k : String) :
    (lookupA (buildArticle e ms) k =
      match ms.reverse.find? (fun p => p.2.target == k) with
      | some p => some (extract_field e p.1 p.2)
      | none => none) ∧
    (∀ t1 t2 m1 m2, m1.target = "authors" → m2.target = "authors" →
      lookupA e.attrs t1 = none → lookupA e.items t1 = none →
      ((lookupA e.attrs t2).isSome || (lookupA e.items t2).isSome) = true →
      lookupA (buildArticle e [(t1, m1), (t2, m2)]) "authors" =
        some (extract_field e t2 m2)) := by
  constructor
  · unfold buildArticle
    rw [lookupA_buildLoop]
    exact lastWrite_eq_find e ms none k
  · intro t1 t2 m1 m2 hm1 hm2 _ _ _
    show lookupA
        (insertOrReplace (insertOrReplace [] m1.target (extract_field e t1 m1))
          m2.target (extract_field e t2 m2)) "authors" = _
    rw [hm1, hm2]
    exact lookupA_insertOrReplace_self _ _ _

/-- Instance of `canonicalize_last_write_wins` at a concrete entry and a
concrete two-rule mapping, both rules targeting `authors`. -/
theorem canonicalize_last_write_wins_witness :
    lookupA
        (buildArticle ⟨true, [], [("t2", Value.str "V")]⟩
          [("t1", MapInfo.plain "authors"), ("t2", MapInfo.plain "authors")])
        "authors" =
      some (extract_field ⟨true, [], [("t2", Value.str "V")]⟩ "t2"
        (MapInfo.plain "authors")) :=
  (canonicalize_last_write_wins ⟨true, [], [("t2", Value.str "V")]⟩
      [("t1", MapInfo.plain "authors"), ("t2", MapInfo.plain "authors")]
      "authors").2
    "t1" "t2" (MapInfo.plain "authors") (MapInfo.plain "authors")
    rfl rfl rfl rfl rfl

end RSSScaner

namespace RSSScaner

/-! ## C7: multi-valued extraction -/

/-- C7: for a multi-valued rule, `extract_field` looks the tag up
(attribute-style first, key-style as fallback), wraps a non-list value in
a one-element list, drops falsy (empty) elements, normalizes each
remaining element and joins with the rule's delimiter in order; for source
values `["A", "  B  "]` and delimiter `"; "` it returns `"A; B"`. -/
theorem extract_multi_characterization (e : Entry) (tag : String) (t j : String) :
    (∀ xs, lookupValues e tag = Value.vlist xs →
      extract_field e tag (.dict t (some j)) =
        String.intercalate j
          ((xs.filter (fun v => !(v == ""))).map (fun v => clean_text (some v)))) ∧
    (∀ s, lookupValues e tag = Value.str s →
      extract_field e tag (.dict t (some j)) =
        String.intercalate j
          (([s].filter (fun v => !(v == ""))).map (fun v => clean_text (some v)))) ∧
    extract_field ⟨true, [], [("dc", Value.vlist ["A", "  B  "])]⟩ "dc"
        (.dict "authors" (some "; ")) = "A; B" := by
  refine ⟨?_, ?_, by decide⟩
  · intro xs hxs
    unfold extract_field
    rw [hxs]
    rfl
  · intro s hs
    unfold extract_field
    rw [hs]
    rfl

/-- Instance of `extract_multi_characterization` at a concrete
attribute-bearing entry with an empty element in the list. -/
theorem extract_multi_characterization_witness :
    extract_field ⟨true, [("x", Value.vlist ["A", "", " C "])], []⟩ "x"
        (.dict "authors" (some ", ")) =
      String.intercalate ", "
        (((["A", "", " C "] : List String).filter (fun v => !(v == ""))).map
          (fun v => clean_text (some v))) :=
  (extract_multi_characterization ⟨true, [("x", Value.vlist ["A", "", " C "])], []⟩
      "x" "authors" ", ").1 ["A", "", " C "] rfl

/-! ## C2: single-valued extraction (corrected) -/

/-- Counterexample to C2 as stated: an item that supports attribute-style
lookup but is not a `dict` instance has its present, truthy value ignored
by the single-valued branch — Python parses the lookup as
`(getattr(entry, tag, None) or entry.get(tag)) if isinstance(entry, dict) else None`,
so a non-dict entry always yields the empty string, not
`normalize(str(value))`. -/
theorem extract_single_attr_only_counterexample :
    extract_field ⟨false, [("title", Value.str "X")], [("title", Value.str "X")]⟩
        "title" (MapInfo.plain "title") = "" ∧
    clean_text (some (pyStr (Value.str "X"))) = "X" ∧
    ("" : String) ≠ "X" := by
  refine ⟨rfl, rfl, by decide⟩

/-- C2 as amended: for a non-multi-valued rule, if the item is a `dict`
instance the lookup is attribute-style first with key-style fallback on an
absent or falsy attribute, returning `""` for an absent or falsy result
and `normalize(str(value))` otherwise; if the item is not a `dict`
instance, `extract_field` returns `""` unconditionally. -/
theorem extract_single_characterization (e : Entry) (tag : String) (mi : MapInfo)
    (hmi : mi.isMultiValued = false) :
    (e.isDict = false → extract_field e tag mi = "") ∧
    (e.isDict = true →
      (lookupA e.attrs tag = none → lookupA e.items tag = none →
        extract_field e tag mi = "") ∧
      (∀ v, lookupA e.attrs tag = some v → truthy v = true →
        extract_field e tag mi = clean_text (some (pyStr v))) ∧
      (∀ v w, lookupA e.attrs tag = some v → truthy v = false →
        lookupA e.items tag = some w →
        extract_field e tag mi =
          if truthy w then clean_text (some (pyStr w)) else "") ∧
      (∀ v, lookupA e.attrs tag = some v → truthy v = false →
        lookupA e.items tag = none → extract_field e tag mi = "") ∧
      (∀ w, lookupA e.attrs tag = none → lookupA e.items tag = some w →
        extract_field e tag mi =
          if truthy w then clean_text (some (pyStr w)) else "")) := by
  have hform : ∀ ov, lookupSingle e tag = ov →
      extract_field e tag mi =
        (match ov with
         | some v => if truthy v then clean_text (some (pyStr v)) else ""
         | none => "") := by
    intro ov hov
    cases mi with
    | plain t => unfold extract_field; rw [hov]
    | dict t jw =>
      cases jw with
      | none => unfold extract_field; rw [hov]
      | some j => simp [MapInfo.isMultiValued] at hmi
  constructor
  · intro hd
    have hls : lookupSingle e tag = none := by simp [lookupSingle, hd]
    exact hform none hls
  · intro hd
    refine ⟨?_, ?_, ?_, ?_, ?_⟩
    · intro ha hi
      have hls : lookupSingle e tag = none := by simp [lookupSingle, hd, ha, hi]
      exact hform none hls
    · intro v ha hv
      have hls : lookupSingle e tag = some v := by simp [lookupSingle, hd, ha, hv]
      rw [hform (some v) hls]
      simp [hv]
    · intro v w ha hv hi
      have hls : lookupSingle e tag = some w := by
        simp [lookupSingle, hd, ha, hv, hi]
      exact hform (some w) hls
    · intro v ha hv hi
      have hls : lookupSingle e tag = none := by
        simp [lookupSingle, hd, ha, hv, hi]
      exact hform none hls
    · intro w ha hi
      have hls : lookupSingle e tag = some w := by simp [lookupSingle, hd, ha, hi]
      exact hform (some w) hls

/-- Instance of `extract_single_characterization`: a plain dict entry with
a present, truthy value under key-style lookup. -/
theorem extract_single_characterization_witness :
    extract_field ⟨true, [], [("title", Value.str " T ")]⟩ "title"
        (MapInfo.plain "title") =
      if truthy (Value.str " T ") then clean_text (some (pyStr (Value.str " T ")))
      else "" :=
  ((extract_single_characterization ⟨true, [], [("title", Value.str " T ")]⟩
      "title" (MapInfo.plain "title") rfl).2 rfl).2.2.2.2 (Value.str " T ") rfl rfl

/-! ## C9 and C10: persistence of the mapping store -/

/-- C9: persisting a finalized rule set for one feed replaces that feed's
prior entry in the (successfully parsed) store and leaves every other
feed's rule set unchanged. -/
theorem update_preserves_other_feeds (feed_id : String) (nm : FeedMapping)
    (d : Store) :
    lookupA (update_json_mapping_file feed_id nm (.parsed d)) feed_id = some nm ∧
    (∀ g, g ≠ feed_id →
      lookupA (update_json_mapping_file feed_id nm (.parsed d)) g = lookupA d g) :=
  ⟨lookupA_insertOrReplace_self d feed_id nm,
   fun g hg => lookupA_insertOrReplace_ne d feed_id g nm hg⟩

/-- Instance of `update_preserves_other_feeds` on a two-feed store. -/
theorem update_preserves_other_feeds_witness :
    lookupA
        (update_json_mapping_file "x" [("t", MapInfo.plain "title")]
          (.parsed [("y", [("u", MapInfo.plain "link")])]))
        "y" = some [("u", MapInfo.plain "link")] ∧
    lookupA
        (update_json_mapping_file "x" [("t", MapInfo.plain "title")]
          (.parsed [("y", [("u", MapInfo.plain "link")])]))
        "x" = some [("t", MapInfo.plain "title")] :=
  ⟨(update_preserves_other_feeds "x" [("t", MapInfo.plain "title")]
        [("y", [("u", MapInfo.plain "link")])]).2 "y" (by decide),
   (update_preserves_other_feeds "x" [("t", MapInfo.plain "title")]
        [("y", [("u", MapInfo.plain "link")])]).1⟩

/-- C10: when the store file exists but fails to parse (and likewise when
it is missing), `update_json_mapping_file` starts from an empty store and
the written document contains only the updated feed's entry, discarding
every other previously stored rule set. -/
theorem update_unparseable_discards (feed_id : String) (nm : FeedMapping) :
    update_json_mapping_file feed_id nm .unparseable = [(feed_id, nm)] ∧
    update_json_mapping_file feed_id nm .missing = [(feed_id, nm)] :=
  ⟨rfl, rfl⟩

end RSSScaner

namespace RSSScaner

/-! ## Lemmas: the suggestion engine's first and second loop -/
theorem lookupA_suggestFirstLoop (tags : List String) :
    ∀ (fhs : List (String × List String)) (m : List (String × String))
      (u : List String) (t : String),
      lookupA (suggestFirstLoop tags fhs (m, u)).1 t =
        lastClaim tags t fhs (lookupA m t) := by
  intro fhs
  induction fhs with
  | nil => intro m u t; rfl
  | cons fh fhs ih =>
    intro m u t
    cases hf : findFirstMatch fh.2 tags with
    | none =>
      simp only [suggestFirstLoop, hf, lastClaim]
      rw [ih]
      rfl
    | some t0 =>
      simp only [suggestFirstLoop, hf, lastClaim]
      rw [ih]
      congr 1
      by_cases h : t0 = t
      · subst h
        have hb : (some t0 == some t0) = true := by simp
        rw [hb, lookupA_insertOrReplace_self]
        rfl
      · have hb : (some t0 == some t) = false := by simp [h]
        rw [hb, lookupA_insertOrReplace_ne m t0 t _ (Ne.symm h)]
        rfl

theorem containsS_suggestFirstLoop (tags : List String) :
    ∀ (fhs : List (String × List String)) (m : List (String × String))
      (u : List String) (t : String),
      containsS (suggestFirstLoop tags fhs (m, u)).2 t =
        (containsS u t ||
          fhs.any (fun fh => findFirstMatch fh.2 tags == some t)) := by
  intro fhs
  induction fhs with
  | nil => intro m u t; simp [suggestFirstLoop]
  | cons fh fhs ih =>
    intro m u t
    cases hf : findFirstMatch fh.2 tags with
    | none =>
      simp only [suggestFirstLoop, hf, List.any_cons, hf]
      rw [ih]
      simp
    | some t0 =>
      simp only [suggestFirstLoop, hf, List.any_cons, hf]
      rw [ih]
      simp only [containsS]
      by_cases h : t0 = t
      · subst h
        simp
      · have hb : (some t0 == some t) = false := by simp [h]
        have hb2 : (t == t0) = false := by simp [Ne.symm h]
        simp [hb, hb2]

theorem lastClaim_some_acc (tags : List String) (t : String) :
    ∀ (fhs : List (String × List String)) (acc : Option String),
      acc.isSome = true → (lastClaim tags t fhs acc).isSome = true := by
  intro fhs
  induction fhs with
  | nil => intro acc h; exact h
  | cons fh fhs ih =>
    intro acc h
    simp only [lastClaim]
    by_cases hc : (findFirstMatch fh.2 tags == some t) = true
    · rw [if_pos hc]; exact ih (some fh.1) rfl
    · rw [if_neg hc]; exact ih acc h

theorem lastClaim_none_of_not_any (tags : List String) (t : String) :
    ∀ fhs : List (String × List String),
      fhs.any (fun fh => findFirstMatch fh.2 tags == some t) = false →
      lastClaim tags t fhs none = none := by
  intro fhs
  induction fhs with
  | nil => intro _; rfl
  | cons fh fhs ih =>
    intro h
    simp only [List.any_cons, Bool.or_eq_false_iff] at h
    simp only [lastClaim, h.1, Bool.false_eq_true, if_neg, not_false_iff]
    exact ih h.2

theorem lastClaim_isSome_of_any (tags : List String) (t : String) :
    ∀ (fhs : List (String × List String)) (acc : Option String),
      fhs.any (fun fh => findFirstMatch fh.2 tags == some t) = true →
      (lastClaim tags t fhs acc).isSome = true := by
  intro fhs
  induction fhs with
  | nil => intro acc h; simp at h
  | cons fh fhs ih =>
    intro acc h
    simp only [List.any_cons, Bool.or_eq_true] at h
    simp only [lastClaim]
    rcases h with h1 | h2
    · rw [if_pos h1]
      exact lastClaim_some_acc tags t fhs (some fh.1) rfl
    · by_cases hc : (findFirstMatch fh.2 tags == some t) = true
      · rw [if_pos hc]; exact lastClaim_some_acc tags t fhs (some fh.1) rfl
      · rw [if_neg hc]; exact ih acc h2

theorem lookupA_suggestSecondLoop (u : List String) :
    ∀ (ts : List String) (m : List (String × String)) (t : String),
      lookupA (suggestSecondLoop u ts m) t =
        if (!containsS u t && containsS ts t) = true then some t
        else lookupA m t := by
  intro ts
  induction ts with
  | nil => intro m t; simp [suggestSecondLoop, containsS]
  | cons s ts ih =>
    intro m t
    simp only [suggestSecondLoop]
    rw [ih]
    simp only [containsS]
    by_cases ht : t = s
    · subst ht
      by_cases hu : containsS u t = true
      · simp [hu]
      · have hu' : containsS u t = false := by
          cases h : containsS u t
          · rfl
          · exact absurd h hu
        by_cases hts : containsS ts t = true
        · simp [hu', hts]
        · have hts' : containsS ts t = false := by
            cases h : containsS ts t
            · rfl
            · exact absurd h hts
          simp [hu', hts', lookupA_insertOrReplace_self]
    · have hbeq : (t == s) = false := by simp [ht]
      simp only [hbeq, Bool.false_or]
      by_cases hus : containsS u s = true
      · simp [hus]
      · have hus' : containsS u s = false := by
          cases h : containsS u s
          · rfl
          · exact absurd h hus
        simp [hus', lookupA_insertOrReplace_ne m s t s ht]

end RSSScaner

namespace RSSScaner

/-- Counterexample to C1 as stated: the code's inner loop neither skips
tags already claimed by a higher-priority field nor guards the dict write,
so for the discovered tags `["link"]` the tag `link` — first claimed by
`doi_url` — is rebound by the lower-priority `link` field, whereas the
claimed first-match-wins assignment described by the spec (modelled by
`suggest_mapping_spec`) leaves it bound to `doi_url`. -/
theorem suggest_mapping_counterexample :
    suggest_mapping ["link"] = [("link", "link")] ∧
    suggest_mapping_spec ["link"] = [("link", "doi_url")] ∧
    suggest_mapping ["link"] ≠ suggest_mapping_spec ["link"] :=
  ⟨by decide, by decide, by decide⟩

/-- C1 as amended: for each canonical field in the fixed priority order of
`FIELD_HINTS`, the engine binds the first discovered tag matching that
field's pattern regardless of prior claims, overwriting any earlier
binding of that tag; hence a tag that is the first match of several
canonical fields ends up bound to the LAST such field in priority order
(`lastClaim`), and a tag claimed by no field maps to itself. -/
theorem suggest_mapping_characterization (tags : List String) (t : String) :
    lookupA (suggest_mapping tags) t =
      match lastClaim tags t FIELD_HINTS none with
      | some canon => some canon
      | none => if containsS tags t = true then some t else none := by
  have hmain :
      lookupA (suggest_mapping tags) t =
        if (!(FIELD_HINTS.any (fun fh => findFirstMatch fh.2 tags == some t)) &&
            containsS tags t) = true then some t
        else lastClaim tags t FIELD_HINTS none := by
    show lookupA
        (suggestSecondLoop (suggestFirstLoop tags FIELD_HINTS ([], [])).2 tags
          (suggestFirstLoop tags FIELD_HINTS ([], [])).1) t = _
    rw [lookupA_suggestSecondLoop, lookupA_suggestFirstLoop,
      containsS_suggestFirstLoop]
    rfl
  rw [hmain]
  cases hlc : lastClaim tags t FIELD_HINTS none with
  | some c =>
    have hany : FIELD_HINTS.any (fun fh => findFirstMatch fh.2 tags == some t) = true := by
      cases h : FIELD_HINTS.any (fun fh => findFirstMatch fh.2 tags == some t)
      · rw [lastClaim_none_of_not_any tags t FIELD_HINTS h] at hlc
        cases hlc
      · rfl
    rw [hany]
    simp
  | none =>
    have hany : FIELD_HINTS.any (fun fh => findFirstMatch fh.2 tags == some t) = false := by
      cases h : FIELD_HINTS.any (fun fh => findFirstMatch fh.2 tags == some t)
      · rfl
      · have hs := lastClaim_isSome_of_any tags t FIELD_HINTS none h
        rw [hlc] at hs
        cases hs
    rw [hany]
    by_cases hct : containsS tags t = true
    · simp [hct]
    · have hct' : containsS tags t = false := by
        cases h : containsS tags t
        · rfl
        · exact absurd h hct
      simp [hct']

/-- C8: on the discovered tag list
`["title", "dc:creator", "description", "pubDate", "link"]` the suggestion
engine produces exactly
`title→title, dc:creator→authors, description→abstract,
pubDate→published_date, link→link` (in that insertion order). -/
theorem suggest_mapping_concrete_example :
    suggest_mapping ["title", "dc:creator", "description", "pubDate", "link"] =
      [("title", "title"), ("dc:creator", "authors"), ("description", "abstract"),
       ("pubDate", "published_date"), ("link", "link")] := by decide

end RSSScaner
